import Mathlib

/-!
Verification development for the render-invocation-and-file-reconciliation
routine of this repository (`render.py`).

The embedding works on `List Char` texts and paths.  Python's `\d` and the
whitespace set of `str.strip` are modelled over their ASCII cores, which is
the alphabet the renderer output and all paths in this program draw from.
The filesystem is modelled as a partial map from paths to file contents and
every mutation performed by the reconciliation loop is recorded in a trace.
-/

namespace Render

/-- ASCII whitespace recognised by Python `str.strip()`. -/
def isPySpace (c : Char) : Bool :=
  c = ' ' || c = '\t' || c = '\n' || c = '\r' || c = '\x0b' || c = '\x0c'

/-- Python `str.strip()`: drop leading and trailing whitespace. -/
def pystrip (l : List Char) : List Char :=
  ((l.dropWhile isPySpace).reverse.dropWhile isPySpace).reverse

/-- Worker for `splitlines`: `acc` holds the (reversed) current line.  The
fuel only serves to make the two-character CRLF consumption structurally
recursive; `s.length + 1` is always enough. -/
def splitlinesGoF : Nat → List Char → List Char → List (List Char)
  | 0, _, _ => []
  | _ + 1, [], acc => if acc = [] then [] else [acc.reverse]
  | fuel + 1, c :: rest, acc =>
    if c = '\n' then acc.reverse :: splitlinesGoF fuel rest []
    else if c = '\r' then
      acc.reverse ::
        splitlinesGoF fuel (if rest.head? = some '\n' then rest.tail else rest) []
    else splitlinesGoF fuel rest (c :: acc)

/-- Python `str.splitlines()` over the line breaks LF, CR and CRLF. -/
def splitlines (s : List Char) : List (List Char) :=
  splitlinesGoF (s.length + 1) s []

/-- Result of `subprocess.run(cmd, stdout=subprocess.PIPE)` as used at
`render.py:18`: the exit code, the captured standard output, and the
standard error text the child wrote (which this call does NOT capture). -/
structure SubprocessResult where
  returncode : Int
  stdout : List Char
  stderr : List Char

/-- The text scanned by `run_and_rename` (`render.py:19`):
`''.join(map(lambda x: x.strip(), result.stdout.decode().splitlines()))`.
Only the `stdout` field is consulted; `stderr` is not captured. -/
def scanned (r : SubprocessResult) : List Char :=
  ((splitlines r.stdout).map pystrip).flatten

/-- One attempt of the regex `\d+_\d+_\d+` (`render.py:21`) at the start of
`s`.  On success returns the (greedy) matched text and the remaining
suffix.  Backtracking never helps this pattern, so the greedy maximal-run
reading is exact. -/
def matchAt (s : List Char) : Option (List Char × List Char) :=
  if s.takeWhile Char.isDigit = [] then none else
  match s.dropWhile Char.isDigit with
  | '_' :: r2 =>
    if r2.takeWhile Char.isDigit = [] then none else
    match r2.dropWhile Char.isDigit with
    | '_' :: r4 =>
      if r4.takeWhile Char.isDigit = [] then none else
      some (s.takeWhile Char.isDigit ++ '_' :: r2.takeWhile Char.isDigit
              ++ '_' :: r4.takeWhile Char.isDigit,
            r4.dropWhile Char.isDigit)
    | _ => none
  | _ => none

/-- Fuelled scan of `re.findall`: try a match at every position, left to
right, resuming after the end of each (non-empty) match. -/
def findallF : Nat → List Char → List (List Char)
  | 0, _ => []
  | _, [] => []
  | fuel + 1, c :: rest =>
    match matchAt (c :: rest) with
    | some (m, r) => m :: findallF fuel r
    | none => findallF fuel rest

/-- `re.findall(r'\d+_\d+_\d+', output)` (`render.py:22`): the list of
non-overlapping matches, leftmost first.  The fuel `s.length` always
suffices because every match is non-empty. -/
def findall (s : List Char) : List (List Char) :=
  findallF s.length s

/-- A text made of exactly three non-empty numeric groups separated by
single underscores: the shape the spec ascribes to extracted identifiers. -/
def isTriple (m : List Char) : Prop :=
  ∃ d1 d2 d3 : List Char,
    d1 ≠ [] ∧ d2 ≠ [] ∧ d3 ≠ [] ∧
    (∀ c ∈ d1, c.isDigit = true) ∧ (∀ c ∈ d2, c.isDigit = true) ∧
    (∀ c ∈ d3, c.isDigit = true) ∧
    m = d1 ++ '_' :: d2 ++ '_' :: d3

/-- The filesystem: a partial map from paths to file contents (abstracted
as natural-number tags, enough to tell files apart). -/
def Fs : Type := List Char → Option Nat

/-- Exceptions the routine can raise: `KeyError` from the quality lookup,
`FileNotFoundError` and `FileExistsError` from `os.remove`/`os.rename`. -/
inductive PyErr : Type
  | keyError
  | fileNotFound
  | fileExists
deriving DecidableEq

/-- A mutation performed on the filesystem. -/
inductive FsOp : Type
  | remove (p : List Char)
  | rename (old new : List Char)
deriving DecidableEq

/-- `os.remove p` on a file known to exist. -/
def fsRemove (p : List Char) (fs : Fs) : Fs :=
  fun q => if q = p then none else fs q

/-- The guarded removal of `render.py:30-31`:
`if os.path.exists(new_path): os.remove(new_path)`. -/
def fsRemoveIf (p : List Char) (fs : Fs) : Fs :=
  if (fs p).isSome then fsRemove p fs else fs

/-- `os.rename old new` (Windows semantics, matching the repository's
target platform): raises `FileNotFoundError` when the source is missing
and `FileExistsError` when the destination exists. -/
def fsRename (old new : List Char) (fs : Fs) : Except PyErr Fs :=
  if (fs old).isNone then .error .fileNotFound
  else if (fs new).isSome then .error .fileExists
  else .ok (fun q => if q = new then fs old else if q = old then none else fs q)

/-- The quality table of `render.py:6-12`. -/
def qualities (q : List Char) : Option (List Char) :=
  if q = "480p15".data then some "-ql".data
  else if q = "720p30".data then some "-qm".data
  else if q = "1080p60".data then some "-qh".data
  else if q = "1440p60".data then some "-qp".data
  else if q = "2160p60".data then some "-qk".data
  else none

/-- The five quality labels, in table order. -/
def qualityLabels : List (List Char) :=
  ["480p15".data, "720p30".data, "1080p60".data, "1440p60".data, "2160p60".data]

/-- Index of the last element satisfying `p`, if any. -/
def lastIdxOf (p : Char → Bool) (l : List Char) : Option Nat :=
  (l.reverse.findIdx? p).map (fun i => l.length - 1 - i)

/-- `os.path.splitext(fp)[0]` (the stem used at `render.py:24`): split at
the last dot of the final path component, except when that component
consists only of leading dots up to the split point. -/
def stem (fp : List Char) : List Char :=
  match lastIdxOf (fun c => c = '.') fp with
  | none => fp
  | some e =>
    let s0 : Nat :=
      match lastIdxOf (fun c => c = '/' || c = '\\') fp with
      | none => 0
      | some s => s + 1
    if s0 ≤ e then
      if ((fp.drop s0).take (e - s0)).any (fun c => c ≠ '.') then fp.take e
      else fp
    else fp

/-- `path_prefix` of `render.py:24`, computed once before the loop:
`media/videos/{stem}/{quality}/partial_movie_files/{scene}/`. -/
def pathPrefix (filename quality scene : List Char) : List Char :=
  "media/videos/".data ++ stem filename ++ "/".data ++ quality
    ++ "/partial_movie_files/".data ++ scene ++ "/".data

/-- The name part `{scene}_{idx}.mp4` of a desired target file. -/
def newName (scene : List Char) (idx : Nat) : List Char :=
  scene ++ "_".data ++ Nat.toDigits 10 idx ++ ".mp4".data

/-- `new_path` of `render.py:28`. -/
def newPathAt (pfx scene : List Char) (idx : Nat) : List Char :=
  pfx ++ newName scene idx

/-- The name part `{identifier}.mp4` of an original file. -/
def oldName (id : List Char) : List Char :=
  id ++ ".mp4".data

/-- `old_path` of `render.py:29`. -/
def oldPathAt (pfx id : List Char) : List Char :=
  pfx ++ oldName id

/-- The desired target paths for `n` identifiers numbered from `idx`. -/
def newsList (pfx scene : List Char) (idx n : Nat) : List (List Char) :=
  match n with
  | 0 => []
  | n + 1 => newPathAt pfx scene idx :: newsList pfx scene (idx + 1) n

/-- The original paths of an identifier list. -/
def oldsList (pfx : List Char) (ids : List (List Char)) : List (List Char) :=
  ids.map (oldPathAt pfx)

/-- Outcome of the reconciliation loop: the mutations performed, the final
filesystem, and either the accumulated `new_filenames` list or the
exception that aborted the loop. -/
structure ReconResult where
  trace : List FsOp
  fs : Fs
  result : Except PyErr (List (List Char))

/-- The loop of `render.py:27-33`: for the identifier at 1-based position
`idx`, delete any existing file at the target path, then rename the
original to the target, accumulating the target paths. -/
def reconcile (pfx scene : List Char) : List (List Char) → Nat → Fs → ReconResult
  | [], _, fs => ⟨[], fs, .ok []⟩
  | id :: rest, idx, fs =>
    let np := newPathAt pfx scene idx
    let op := oldPathAt pfx id
    let tr0 : List FsOp := if (fs np).isSome then [.remove np] else []
    let fs0 : Fs := fsRemoveIf np fs
    match fsRename op np fs0 with
    | .error e => ⟨tr0, fs0, .error e⟩
    | .ok fs1 =>
      let r := reconcile pfx scene rest (idx + 1) fs1
      ⟨tr0 ++ .rename op np :: r.trace, r.fs, r.result.map (fun l => np :: l)⟩

/-- Outcome of `run_and_rename`: the mutations performed, the final
filesystem, whether the renderer subprocess was invoked, and either the
returned list of new paths or the exception raised. -/
structure RunOutcome where
  trace : List FsOp
  fs : Fs
  ranSubprocess : Bool
  result : Except PyErr (List (List Char))

/-- `run_and_rename` of `render.py:14-35`.  The quality lookup happens
while the command line is built, before the subprocess is started; the
subprocess result is passed in as an oracle (`sub`). -/
def run_and_rename (filename scene quality : List Char)
    (sub : SubprocessResult) (fs : Fs) : RunOutcome :=
  match qualities quality with
  | none => ⟨[], fs, false, .error .keyError⟩
  | some _flag =>
    let ms := findall (scanned sub)
    let pfx := pathPrefix filename quality scene
    let r := reconcile pfx scene ms 1 fs
    ⟨r.trace, r.fs, true, r.result⟩

/-- The paths an operation touches. -/
def opPaths : FsOp → List (List Char)
  | .remove p => [p]
  | .rename old new => [old, new]

/-- Restoring the original files (the renderer regenerating them): put a
file with content `c` at every original path. -/
def restoreOlds (pfx : List Char) (ids : List (List Char)) (c : Nat) (fs : Fs) : Fs :=
  fun q => if q ∈ oldsList pfx ids then some c else fs q

instance {ε α : Type} [DecidableEq ε] [DecidableEq α] : DecidableEq (Except ε α) :=
  fun x y =>
    match x, y with
    | .error a, .error b =>
      if h : a = b then .isTrue (by rw [h])
      else .isFalse (fun hh => h (by cases hh; rfl))
    | .ok a, .ok b =>
      if h : a = b then .isTrue (by rw [h])
      else .isFalse (fun hh => h (by cases hh; rfl))
    | .error _, .ok _ => .isFalse (fun hh => by cases hh)
    | .ok _, .error _ => .isFalse (fun hh => by cases hh)

/-- Concrete double-run scenario for the idempotence claim: one extracted
identifier `1_2_3`, scene `S`, quality `480p15`, source file `f.py`. -/
def rerunPfx : List Char := pathPrefix "f.py".data "480p15".data "S".data

/-- Filesystem holding exactly the original partial movie file of the
double-run scenario. -/
def rerunFs0 : Fs := fun q => if q = oldPathAt rerunPfx "1_2_3".data then some 0 else none

/-- First reconciliation run of the double-run scenario. -/
def rerunOnce : ReconResult := reconcile rerunPfx "S".data ["1_2_3".data] 1 rerunFs0

/-- Second reconciliation run, on the state the first run left behind,
without the renderer having regenerated the original file. -/
def rerunTwice : ReconResult := reconcile rerunPfx "S".data ["1_2_3".data] 1 rerunOnce.fs

end Render

namespace Render

/-! ### Lemmas about the text scan -/

theorem takeWhile_block {p : Char → Bool} {d : List Char} (x : Char) (r : List Char)
    (hd : ∀ c ∈ d, p c = true) (hx : p x = false) :
    (d ++ x :: r).takeWhile p = d ∧ (d ++ x :: r).dropWhile p = x :: r := by
  induction d with
  | nil => simp [List.takeWhile_cons, List.dropWhile_cons, hx]
  | cons a d ih =>
    have ha : p a = true := hd a (List.mem_cons_self a d)
    have ih2 := ih (fun c hc => hd c (List.mem_cons_of_mem a hc))
    simp [List.takeWhile_cons, List.dropWhile_cons, ha, ih2.1, ih2.2]

theorem takeWhile_all {p : Char → Bool} {d : List Char}
    (hd : ∀ c ∈ d, p c = true) :
    d.takeWhile p = d ∧ d.dropWhile p = [] := by
  induction d with
  | nil => simp
  | cons a d ih =>
    have ha : p a = true := hd a (List.mem_cons_self a d)
    have ih2 := ih (fun c hc => hd c (List.mem_cons_of_mem a hc))
    simp [List.takeWhile_cons, List.dropWhile_cons, ha, ih2.1, ih2.2]

theorem matchAt_some {s m r : List Char} (h : matchAt s = some (m, r)) :
    s = m ++ r ∧ m ≠ [] ∧ isTriple m := by
  unfold matchAt at h
  split at h
  · exact absurd h (by simp)
  next h1 =>
    split at h
    next r2 heq1 =>
      split at h
      · exact absurd h (by simp)
      next h2 =>
        split at h
        next r4 heq2 =>
          split at h
          · exact absurd h (by simp)
          next h3 =>
            rw [Option.some.injEq, Prod.mk.injEq] at h
            obtain ⟨hm, hr⟩ := h
            subst hm
            subst hr
            set t1 := s.takeWhile Char.isDigit with ht1
            set t2 := r2.takeWhile Char.isDigit with ht2
            set t3 := r4.takeWhile Char.isDigit with ht3
            set r5 := r4.dropWhile Char.isDigit with hr5
            have e1 : t1 ++ '_' :: r2 = s := by
              rw [ht1, ← heq1]; exact List.takeWhile_append_dropWhile _ _
            have e2 : t2 ++ '_' :: r4 = r2 := by
              rw [ht2, ← heq2]; exact List.takeWhile_append_dropWhile _ _
            have e3 : t3 ++ r5 = r4 := by
              rw [ht3, hr5]; exact List.takeWhile_append_dropWhile _ _
            refine ⟨?_, ?_, ?_⟩
            · rw [← e1, ← e2, ← e3]
              simp [List.append_assoc]
            · intro hnil
              simp at hnil
            · refine ⟨t1, t2, t3, h1, h2, h3, ?_, ?_, ?_, rfl⟩
              · intro c hc
                rw [ht1] at hc
                exact List.mem_takeWhile_imp hc
              · intro c hc
                rw [ht2] at hc
                exact List.mem_takeWhile_imp hc
              · intro c hc
                rw [ht3] at hc
                exact List.mem_takeWhile_imp hc
        next => exact absurd h (by simp)
    next => exact absurd h (by simp)

theorem matchAt_some_length {s m r : List Char} (h : matchAt s = some (m, r)) :
    r.length < s.length := by
  obtain ⟨hs, hm, -⟩ := matchAt_some h
  have hpos : 0 < m.length := List.length_pos.mpr hm
  rw [hs, List.length_append]
  omega

theorem findallF_congr : ∀ (f1 : Nat) (s : List Char) (f2 : Nat),
    s.length ≤ f1 → s.length ≤ f2 → findallF f1 s = findallF f2 s := by
  intro f1
  induction f1 with
  | zero =>
    intro s f2 h1 h2
    have hs : s = [] := List.eq_nil_of_length_eq_zero (Nat.le_zero.mp h1)
    subst hs
    cases f2 <;> simp [findallF]
  | succ f1 ih =>
    intro s f2 h1 h2
    cases s with
    | nil => cases f2 <;> simp [findallF]
    | cons c rest =>
      cases f2 with
      | zero => simp at h2
      | succ f2 =>
        simp only [findallF]
        cases hm : matchAt (c :: rest) with
        | some p =>
          obtain ⟨m, r⟩ := p
          have hl := matchAt_some_length hm
          simp only [List.length_cons] at h1 h2 hl
          show m :: findallF f1 r = m :: findallF f2 r
          rw [ih r f2 (by omega) (by omega)]
        | none =>
          simp only [List.length_cons] at h1 h2
          show findallF f1 rest = findallF f2 rest
          exact ih rest f2 (by omega) (by omega)

theorem findall_cons_some {c : Char} {rest m r : List Char}
    (h : matchAt (c :: rest) = some (m, r)) :
    findall (c :: rest) = m :: findall r := by
  unfold findall
  have hl := matchAt_some_length h
  simp only [List.length_cons] at hl
  simp only [List.length_cons, findallF, h]
  rw [findallF_congr rest.length r r.length (by omega) (Nat.le_refl _)]

theorem findall_cons_none {c : Char} {rest : List Char}
    (h : matchAt (c :: rest) = none) :
    findall (c :: rest) = findall rest := by
  unfold findall
  simp only [List.length_cons, findallF, h]

theorem findall_sound (s : List Char) : ∀ m ∈ findall s, isTriple m ∧ m <:+: s := by
  cases s with
  | nil => intro m hm; simp [findall, findallF] at hm
  | cons c rest =>
    cases hm : matchAt (c :: rest) with
    | some p =>
      obtain ⟨m0, r⟩ := p
      rw [findall_cons_some hm]
      intro m hmem
      rcases List.mem_cons.mp hmem with h | h
      · subst h
        obtain ⟨hs, -, htrip⟩ := matchAt_some hm
        refine ⟨htrip, ?_⟩
        rw [hs]
        exact (List.prefix_append m r).isInfix
      · have ihm := findall_sound r m h
        obtain ⟨hs, -, -⟩ := matchAt_some hm
        refine ⟨ihm.1, ihm.2.trans ?_⟩
        rw [hs]
        exact (List.suffix_append m0 r).isInfix
    | none =>
      rw [findall_cons_none hm]
      intro m hmem
      have ihm := findall_sound rest m hmem
      exact ⟨ihm.1, ihm.2.trans (List.suffix_cons c rest).isInfix⟩
termination_by s.length
decreasing_by
  all_goals
    first
      | (have hlen := matchAt_some_length hm
         simp only [List.length_cons] at hlen ⊢
         omega)
      | simp

theorem mem_pystrip {c : Char} {l : List Char} (h : c ∈ pystrip l) : c ∈ l := by
  unfold pystrip at h
  rw [List.mem_reverse] at h
  have h2 : c ∈ (l.dropWhile isPySpace).reverse := List.Sublist.mem h (List.dropWhile_sublist _)
  rw [List.mem_reverse] at h2
  exact List.Sublist.mem h2 (List.dropWhile_sublist _)

theorem splitlinesGoF_no_nl : ∀ (fuel : Nat) (s acc : List Char),
    (∀ c ∈ acc, c ≠ '\n' ∧ c ≠ '\r') →
    ∀ seg ∈ splitlinesGoF fuel s acc, ∀ c ∈ seg, c ≠ '\n' ∧ c ≠ '\r' := by
  intro fuel
  induction fuel with
  | zero => intro s acc hacc seg hseg; simp [splitlinesGoF] at hseg
  | succ fuel ih =>
    intro s acc hacc seg hseg
    cases s with
    | nil =>
      simp only [splitlinesGoF] at hseg
      split at hseg
      · simp at hseg
      · simp only [List.mem_singleton] at hseg
        subst hseg
        intro c hc
        exact hacc c (List.mem_reverse.mp hc)
    | cons ch rest =>
      simp only [splitlinesGoF] at hseg
      by_cases h1 : ch = '\n'
      · rw [if_pos h1] at hseg
        rcases List.mem_cons.mp hseg with h | h
        · subst h
          intro c hc
          exact hacc c (List.mem_reverse.mp hc)
        · exact ih _ [] (by simp) seg h
      · rw [if_neg h1] at hseg
        by_cases h2 : ch = '\r'
        · rw [if_pos h2] at hseg
          rcases List.mem_cons.mp hseg with h | h
          · subst h
            intro c hc
            exact hacc c (List.mem_reverse.mp hc)
          · exact ih _ [] (by simp) seg h
        · rw [if_neg h2] at hseg
          refine ih rest (ch :: acc) ?_ seg hseg
          intro c hc
          rcases List.mem_cons.mp hc with h | h
          · subst h; exact ⟨h1, h2⟩
          · exact hacc c h

theorem scanned_no_nl (r : SubprocessResult) : ∀ c ∈ scanned r, c ≠ '\n' ∧ c ≠ '\r' := by
  intro c hc
  unfold scanned at hc
  rw [List.mem_flatten] at hc
  obtain ⟨seg, hseg, hcseg⟩ := hc
  rw [List.mem_map] at hseg
  obtain ⟨seg0, hseg0, rfl⟩ := hseg
  unfold splitlines at hseg0
  exact splitlinesGoF_no_nl _ _ [] (by simp) seg0 hseg0 c (mem_pystrip hcseg)

end Render

namespace Render

/-! ### Lemmas about the filesystem model and the reconciliation loop -/

theorem fsRemoveIf_apply (p : List Char) (fs : Fs) (q : List Char) :
    fsRemoveIf p fs q = if q = p then none else fs q := by
  unfold fsRemoveIf fsRemove
  by_cases h : (fs p).isSome
  · simp [h]
  · rw [if_neg h]
    split
    next hq =>
      subst hq
      exact (Option.not_isSome_iff_eq_none.mp h).symm ▸ rfl
    next => rfl

theorem fsRename_ok {old new : List Char} {fs fs' : Fs}
    (h : fsRename old new fs = .ok fs') :
    fs' = (fun q => if q = new then fs old else if q = old then none else fs q)
      ∧ (fs old).isSome = true ∧ fs new = none := by
  unfold fsRename at h
  split at h
  · exact absurd h (by simp)
  next h1 =>
    split at h
    · exact absurd h (by simp)
    next h2 =>
      rw [Except.ok.injEq] at h
      refine ⟨h.symm, ?_, ?_⟩
      · rw [Option.isNone_iff_eq_none] at h1
        exact Option.ne_none_iff_isSome.mp h1
      · exact Option.not_isSome_iff_eq_none.mp h2

theorem fsRename_cases (old new : List Char) (fs : Fs) (hnew : fs new = none) :
    (fsRename old new fs = .error .fileNotFound ∧ fs old = none) ∨
    ∃ fs', fsRename old new fs = .ok fs' := by
  unfold fsRename
  by_cases h : (fs old).isNone
  · exact Or.inl ⟨by rw [if_pos h], Option.isNone_iff_eq_none.mp h⟩
  · right
    rw [if_neg h, if_neg (by simp [hnew])]
    exact ⟨_, rfl⟩

theorem reconcile_ne_fileExists (pfx scene : List Char) :
    ∀ (ids : List (List Char)) (idx : Nat) (fs : Fs),
      (reconcile pfx scene ids idx fs).result ≠ .error .fileExists := by
  intro ids
  induction ids with
  | nil => intro idx fs; simp [reconcile]
  | cons id rest ih =>
    intro idx fs
    have hnew : fsRemoveIf (newPathAt pfx scene idx) fs (newPathAt pfx scene idx) = none := by
      rw [fsRemoveIf_apply, if_pos rfl]
    rcases fsRename_cases (oldPathAt pfx id) (newPathAt pfx scene idx)
        (fsRemoveIf (newPathAt pfx scene idx) fs) hnew with ⟨hr, -⟩ | ⟨fs1, hr⟩
    · simp only [reconcile, hr]
      simp
    · simp only [reconcile, hr]
      cases hres : (reconcile pfx scene rest (idx + 1) fs1).result with
      | ok l => simp [Except.map, hres]
      | error e =>
        have hne := ih (idx + 1) fs1
        rw [hres] at hne
        simp only [Except.map, hres]
        intro hcon
        rw [Except.error.injEq] at hcon
        exact hne (by rw [hcon])

theorem reconcile_ok_names (pfx scene : List Char) :
    ∀ (ids : List (List Char)) (idx : Nat) (fs : Fs) (l : List (List Char)),
      (reconcile pfx scene ids idx fs).result = .ok l →
      l = newsList pfx scene idx ids.length := by
  intro ids
  induction ids with
  | nil =>
    intro idx fs l h
    simp [reconcile] at h
    simp [newsList, ← h]
  | cons id rest ih =>
    intro idx fs l h
    simp only [reconcile] at h
    split at h
    · exact absurd h (by simp)
    next fs1 hr =>
      simp only [] at h
      cases hres : (reconcile pfx scene rest (idx + 1) fs1).result with
      | error e => rw [hres] at h; exact absurd h (by simp [Except.map])
      | ok l0 =>
        rw [hres] at h
        simp only [Except.map, Except.ok.injEq] at h
        have hl0 := ih (idx + 1) fs1 l0 hres
        rw [← h, hl0]
        simp [newsList, List.length_cons]

end Render

namespace Render

theorem reconcile_frame (pfx scene : List Char) :
    ∀ (ids : List (List Char)) (idx : Nat) (fs : Fs),
      (∀ fsop ∈ (reconcile pfx scene ids idx fs).trace,
        ∀ p ∈ opPaths fsop, ∃ t, p = pfx ++ t) ∧
      (∀ q, (∀ t, q ≠ pfx ++ t) → (reconcile pfx scene ids idx fs).fs q = fs q) := by
  intro ids
  induction ids with
  | nil =>
    intro idx fs
    constructor
    · intro fsop h
      simp [reconcile] at h
    · intro q hq
      simp [reconcile]
  | cons id rest ih =>
    intro idx fs
    have hnew0 : fsRemoveIf (newPathAt pfx scene idx) fs (newPathAt pfx scene idx) = none := by
      rw [fsRemoveIf_apply, if_pos rfl]
    rcases fsRename_cases (oldPathAt pfx id) (newPathAt pfx scene idx)
        (fsRemoveIf (newPathAt pfx scene idx) fs) hnew0 with ⟨hr, -⟩ | ⟨fs1, hr⟩
    · simp only [reconcile, hr]
      constructor
      · intro fsop hmem p hp
        split at hmem
        · simp only [List.mem_singleton] at hmem
          subst hmem
          simp only [opPaths, List.mem_singleton] at hp
          subst hp
          exact ⟨newName scene idx, rfl⟩
        · simp at hmem
      · intro q hq
        have hqnp : ¬(q = newPathAt pfx scene idx) :=
          fun hcon => hq (newName scene idx) (by rw [hcon]; rfl)
        rw [fsRemoveIf_apply, if_neg hqnp]
    · simp only [reconcile, hr]
      obtain ⟨hfs1, -, -⟩ := fsRename_ok hr
      obtain ⟨ihT, ihF⟩ := ih (idx + 1) fs1
      constructor
      · intro fsop hmem p hp
        rw [List.mem_append, List.mem_cons] at hmem
        rcases hmem with hmem | hmem | hmem
        · split at hmem
          · simp only [List.mem_singleton] at hmem
            subst hmem
            simp only [opPaths, List.mem_singleton] at hp
            subst hp
            exact ⟨newName scene idx, rfl⟩
          · simp at hmem
        · subst hmem
          simp only [opPaths, List.mem_cons, List.not_mem_nil, or_false] at hp
          rcases hp with hp | hp
          · subst hp
            exact ⟨oldName id, rfl⟩
          · subst hp
            exact ⟨newName scene idx, rfl⟩
        · exact ihT fsop hmem p hp
      · intro q hq
        have hqnp : ¬(q = newPathAt pfx scene idx) :=
          fun hcon => hq (newName scene idx) (by rw [hcon]; rfl)
        have hqop : ¬(q = oldPathAt pfx id) :=
          fun hcon => hq (oldName id) (by rw [hcon]; rfl)
        rw [ihF q hq, hfs1]
        simp only []
        rw [if_neg hqnp, if_neg hqop, fsRemoveIf_apply, if_neg hqnp]

theorem reconcile_failure_keeps_done_steps (pfx scene : List Char) :
    ∀ (pre : List (List Char)) (id : List Char) (rest : List (List Char))
      (idx : Nat) (fs : Fs) (l1 : List (List Char)),
      (reconcile pfx scene pre idx fs).result = .ok l1 →
      fsRemoveIf (newPathAt pfx scene (idx + pre.length)) (reconcile pfx scene pre idx fs).fs
          (oldPathAt pfx id) = none →
      reconcile pfx scene (pre ++ id :: rest) idx fs =
        ⟨(reconcile pfx scene pre idx fs).trace ++
           (if ((reconcile pfx scene pre idx fs).fs (newPathAt pfx scene (idx + pre.length))).isSome
            then [.remove (newPathAt pfx scene (idx + pre.length))] else []),
         fsRemoveIf (newPathAt pfx scene (idx + pre.length)) (reconcile pfx scene pre idx fs).fs,
         .error .fileNotFound⟩ := by
  intro pre
  induction pre with
  | nil =>
    intro id rest idx fs l1 hok hfail
    simp only [reconcile, List.length_nil, Nat.add_zero] at hfail ⊢
    have hren : fsRename (oldPathAt pfx id) (newPathAt pfx scene idx)
        (fsRemoveIf (newPathAt pfx scene idx) fs) = .error .fileNotFound := by
      unfold fsRename
      rw [if_pos (Option.isNone_iff_eq_none.mpr hfail)]
    simp only [List.nil_append, reconcile, hren]
  | cons x pre ih =>
    intro id rest idx fs l1 hok hfail
    have hnew0 : fsRemoveIf (newPathAt pfx scene idx) fs (newPathAt pfx scene idx) = none := by
      rw [fsRemoveIf_apply, if_pos rfl]
    rcases fsRename_cases (oldPathAt pfx x) (newPathAt pfx scene idx)
        (fsRemoveIf (newPathAt pfx scene idx) fs) hnew0 with ⟨hr, -⟩ | ⟨fs1, hr⟩
    · rw [show ((x :: pre) : List (List Char)) = x :: pre from rfl] at hok
      simp only [reconcile, hr] at hok
      simp at hok
    · have harith : idx + (x :: pre).length = (idx + 1) + pre.length := by
        simp [List.length_cons]
        omega
      rw [harith] at hfail ⊢
      simp only [reconcile, hr] at hok hfail
      cases hres : (reconcile pfx scene pre (idx + 1) fs1).result with
      | error e =>
        rw [hres] at hok
        simp [Except.map] at hok
      | ok la =>
        have hstep := ih id rest (idx + 1) fs1 la hres hfail
        simp only [List.cons_append, reconcile, hr, List.append_eq]
        rw [hstep]
        simp [List.append_assoc, Except.map]

theorem reconcile_ok_dom (pfx scene : List Char) :
    ∀ (ids : List (List Char)) (idx : Nat) (fs : Fs),
      (oldsList pfx ids).Nodup →
      (∀ p ∈ oldsList pfx ids, p ∉ newsList pfx scene idx ids.length) →
      (∀ p ∈ oldsList pfx ids, (fs p).isSome = true) →
      (∃ l, (reconcile pfx scene ids idx fs).result = .ok l) ∧
      (∀ q, ((reconcile pfx scene ids idx fs).fs q).isSome = true ↔
        (q ∈ newsList pfx scene idx ids.length ∨
          ((fs q).isSome = true ∧ q ∉ oldsList pfx ids))) := by
  intro ids
  induction ids with
  | nil =>
    intro idx fs h1 h2 h3
    refine ⟨⟨[], by simp [reconcile]⟩, ?_⟩
    intro q
    simp [reconcile, newsList, oldsList]
  | cons id rest ih =>
    intro idx fs hnd hnews hdom
    have hmem0 : oldPathAt pfx id ∈ oldsList pfx (id :: rest) := by simp [oldsList]
    have hop_some : (fs (oldPathAt pfx id)).isSome = true := hdom _ hmem0
    have hnp_mem : newPathAt pfx scene idx ∈ newsList pfx scene idx (id :: rest).length := by
      simp [newsList, List.length_cons]
    have hop_ne : oldPathAt pfx id ≠ newPathAt pfx scene idx := by
      intro hcon
      exact hnews _ hmem0 (hcon ▸ hnp_mem)
    have hfs0op : (fsRemoveIf (newPathAt pfx scene idx) fs (oldPathAt pfx id)).isSome = true := by
      rw [fsRemoveIf_apply, if_neg hop_ne]
      exact hop_some
    have hfs0np : fsRemoveIf (newPathAt pfx scene idx) fs (newPathAt pfx scene idx) = none := by
      rw [fsRemoveIf_apply, if_pos rfl]
    rcases fsRename_cases (oldPathAt pfx id) (newPathAt pfx scene idx)
        (fsRemoveIf (newPathAt pfx scene idx) fs) hfs0np with ⟨-, hnone⟩ | ⟨fs1, hr⟩
    · rw [hnone] at hfs0op
      simp at hfs0op
    · obtain ⟨hfs1, -, -⟩ := fsRename_ok hr
      have holds_cons : oldsList pfx (id :: rest) = oldPathAt pfx id :: oldsList pfx rest := by
        simp [oldsList]
      have hnews_cons : newsList pfx scene idx (id :: rest).length
          = newPathAt pfx scene idx :: newsList pfx scene (idx + 1) rest.length := by
        simp [newsList, List.length_cons]
      rw [holds_cons] at hnd hnews hdom
      rw [hnews_cons] at hnews
      have hnd2 : (oldsList pfx rest).Nodup := (List.nodup_cons.mp hnd).2
      have hop_notin : oldPathAt pfx id ∉ oldsList pfx rest := (List.nodup_cons.mp hnd).1
      have hnews2 : ∀ p ∈ oldsList pfx rest, p ∉ newsList pfx scene (idx + 1) rest.length := by
        intro p hp hcon
        exact hnews p (List.mem_cons_of_mem _ hp) (List.mem_cons_of_mem _ hcon)
      have holds_ne_np : ∀ p ∈ oldsList pfx rest, p ≠ newPathAt pfx scene idx := by
        intro p hp hcon
        exact hnews p (List.mem_cons_of_mem _ hp) (by rw [hcon]; exact List.mem_cons_self _ _)
      have hdom2 : ∀ p ∈ oldsList pfx rest, (fs1 p).isSome = true := by
        intro p hp
        rw [hfs1]
        simp only []
        rw [if_neg (holds_ne_np p hp),
          if_neg (fun hcon => hop_notin (by rw [← hcon]; exact hp)),
          fsRemoveIf_apply, if_neg (holds_ne_np p hp)]
        exact hdom p (List.mem_cons_of_mem _ hp)
      obtain ⟨⟨l, hl⟩, hdomIH⟩ := ih (idx + 1) fs1 hnd2 hnews2 hdom2
      constructor
      · refine ⟨newPathAt pfx scene idx :: l, ?_⟩
        simp only [reconcile, hr]
        rw [hl]
        simp [Except.map]
      · intro q
        simp only [reconcile, hr]
        rw [hdomIH q, hnews_cons, holds_cons, hfs1]
        simp only [List.mem_cons]
        by_cases hq1 : q = newPathAt pfx scene idx
        · subst hq1
          have h5 : newPathAt pfx scene idx ∉ oldsList pfx rest :=
            fun hcon => holds_ne_np _ hcon rfl
          simp [hfs0op, h5]
        · by_cases hq2 : q = oldPathAt pfx id
          · subst hq2
            have h6 := hnews _ (List.mem_cons_self _ _)
            rw [List.mem_cons] at h6
            push_neg at h6
            simp [hop_ne, h6.2]
          · simp only [if_neg hq1, if_neg hq2, fsRemoveIf_apply]
            constructor
            · intro h
              rcases h with h | ⟨ha, hb⟩
              · exact Or.inl (Or.inr h)
              · exact Or.inr ⟨ha, by simp [hq2, hb]⟩
            · intro h
              rcases h with (h | h) | ⟨ha, hb⟩
              · exact absurd h hq1
              · exact Or.inl h
              · refine Or.inr ⟨ha, ?_⟩
                simp at hb
                exact hb.2

end Render

namespace Render

theorem matchAt_triple {d1 d2 d3 : List Char} (h1 : d1 ≠ []) (h2 : d2 ≠ []) (h3 : d3 ≠ [])
    (hd1 : ∀ c ∈ d1, c.isDigit = true) (hd2 : ∀ c ∈ d2, c.isDigit = true)
    (hd3 : ∀ c ∈ d3, c.isDigit = true) :
    matchAt (d1 ++ '_' :: (d2 ++ '_' :: d3)) = some (d1 ++ '_' :: (d2 ++ '_' :: d3), []) := by
  have b1 := takeWhile_block (p := Char.isDigit) (d := d1) '_' (d2 ++ '_' :: d3) hd1 (by decide)
  have b2 := takeWhile_block (p := Char.isDigit) (d := d2) '_' d3 hd2 (by decide)
  have b3 := takeWhile_all (p := Char.isDigit) (d := d3) hd3
  unfold matchAt
  simp only [b1.1, b1.2, b2.1, b2.2, b3.1, b3.2, if_neg h1, if_neg h2, if_neg h3]
  simp [List.append_assoc, List.cons_append]

theorem findall_triple {d1 d2 d3 : List Char} (h1 : d1 ≠ []) (h2 : d2 ≠ []) (h3 : d3 ≠ [])
    (hd1 : ∀ c ∈ d1, c.isDigit = true) (hd2 : ∀ c ∈ d2, c.isDigit = true)
    (hd3 : ∀ c ∈ d3, c.isDigit = true) :
    findall (d1 ++ '_' :: (d2 ++ '_' :: d3)) = [d1 ++ '_' :: (d2 ++ '_' :: d3)] := by
  have hm := matchAt_triple h1 h2 h3 hd1 hd2 hd3
  obtain ⟨c, d1x, rfl⟩ : ∃ c t, d1 = c :: t := by
    cases d1 with
    | nil => exact absurd rfl h1
    | cons a b => exact ⟨a, b, rfl⟩
  rw [show ((c :: d1x) ++ '_' :: (d2 ++ '_' :: d3)) = c :: (d1x ++ '_' :: (d2 ++ '_' :: d3))
      from rfl] at hm ⊢
  rw [findall_cons_some hm]
  rfl

theorem no_digits_no_triple {s : List Char} (h : ∀ c ∈ s, c.isDigit = false) :
    ∀ m, isTriple m → ¬ m <:+: s := by
  rintro m ⟨d1, d2, d3, h1, -, -, hd1, -, -, rfl⟩ hinf
  obtain ⟨c, d1x, rfl⟩ : ∃ c t, d1 = c :: t := by
    cases d1 with
    | nil => exact absurd rfl h1
    | cons a b => exact ⟨a, b, rfl⟩
  have hc : c ∈ (c :: d1x) ++ '_' :: d2 ++ '_' :: d3 := by simp
  have hcs : c ∈ s := hinf.subset hc
  have ht := hd1 c (List.mem_cons_self c d1x)
  rw [h c hcs] at ht
  cases ht

end Render

namespace Render

/-! ### Claim theorems -/

/-- C1, counterexample: the identifier regex is unanchored, so on the
four-segment input `1_2_3_4` it does report a match (`1_2_3`) lying inside
the pattern with an extra underscore-separated segment, refuting the claim
that no match is reported inside such patterns. -/
theorem C1_match_inside_longer_pattern :
    findall "1_2_3_4".data = ["1_2_3".data] ∧
    "1_2_3_4".data = "1_2_3".data ++ "_4".data :=
  ⟨by decide, by decide⟩

/-- C1, amended: every match reported by the identifier-extraction scan is
exactly three non-empty numeric groups separated by single underscores (so
no reported match has extra segments or non-numeric characters inside it),
and any text that is exactly such a triple is matched in full; the regex
being unanchored, matches may however begin inside longer
underscore-separated patterns. -/
theorem C1_matches_are_exact_triples (s m d1 d2 d3 : List Char) :
    (m ∈ findall s → isTriple m) ∧
    (d1 ≠ [] → d2 ≠ [] → d3 ≠ [] →
      (∀ c ∈ d1, c.isDigit = true) → (∀ c ∈ d2, c.isDigit = true) →
      (∀ c ∈ d3, c.isDigit = true) →
      findall (d1 ++ '_' :: (d2 ++ '_' :: d3)) = [d1 ++ '_' :: (d2 ++ '_' :: d3)]) :=
  ⟨fun h => (findall_sound s m h).1,
   fun h1 h2 h3 hd1 hd2 hd3 => findall_triple h1 h2 h3 hd1 hd2 hd3⟩

/-- Witness for C1 at a concrete input. -/
theorem C1_matches_are_exact_triples_witness :
    isTriple "1_2_3".data ∧
    findall ("4".data ++ '_' :: ("56".data ++ '_' :: "7".data))
      = ["4".data ++ '_' :: ("56".data ++ '_' :: "7".data)] :=
  ⟨(C1_matches_are_exact_triples "x1_2_3y".data "1_2_3".data "4".data "56".data "7".data).1
      (by decide),
   (C1_matches_are_exact_triples "x1_2_3y".data "1_2_3".data "4".data "56".data "7".data).2
      (by decide) (by decide) (by decide) (by decide) (by decide) (by decide)⟩

/-- C2, counterexample: the subprocess call captures only standard output,
so two runs differing only in their stderr text produce the same scanned
text, refuting the claim that changing only stderr changes the scanned
text. -/
theorem C2_stderr_not_captured :
    scanned ⟨0, "1_2_3".data, "err a".data⟩ = scanned ⟨0, "1_2_3".data, "err b".data⟩ ∧
    "err a".data ≠ "err b".data :=
  ⟨rfl, by decide⟩

/-- C2, amended: the text `run_and_rename` scans is computed from the
captured standard output alone (stderr and the exit code are irrelevant to
it and to the whole outcome), and it is a single line: it contains no
newline or carriage-return character. -/
theorem C2_scan_depends_only_on_stdout (ec ec' : Int) (out err err' : List Char)
    (filename scene quality : List Char) (fs : Fs) :
    scanned ⟨ec, out, err⟩ = scanned ⟨ec', out, err'⟩ ∧
    (∀ c ∈ scanned ⟨ec, out, err⟩, c ≠ '\n' ∧ c ≠ '\r') ∧
    run_and_rename filename scene quality ⟨ec, out, err⟩ fs
      = run_and_rename filename scene quality ⟨ec', out, err'⟩ fs :=
  ⟨rfl, scanned_no_nl _, rfl⟩

/-- Witness for C2 at a concrete input. -/
theorem C2_scan_depends_only_on_stdout_witness :
    scanned ⟨0, "ab".data, "x".data⟩ = scanned ⟨7, "ab".data, "y".data⟩ ∧
    ('a' ≠ '\n' ∧ 'a' ≠ '\r') :=
  ⟨(C2_scan_depends_only_on_stdout 0 7 "ab".data "x".data "y".data "f.py".data "S".data
      "480p15".data (fun _ => none)).1,
   (C2_scan_depends_only_on_stdout 0 7 "ab".data "x".data "y".data "f.py".data "S".data
      "480p15".data (fun _ => none)).2.1 'a' (by decide)⟩

/-- C4, counterexample: extraction does not return ALL substrings matching
the three-part pattern: in `12_3_4` the substring `2_3_4` matches the
pattern and occurs in the text, yet only the leftmost match `12_3_4` is
returned, because the scan is non-overlapping. -/
theorem C4_overlapping_match_not_reported :
    findall "12_3_4".data = ["12_3_4".data] ∧
    isTriple "2_3_4".data ∧
    (∃ pre post, "12_3_4".data = pre ++ "2_3_4".data ++ post) ∧
    "2_3_4".data ∉ findall "12_3_4".data :=
  ⟨by decide,
   ⟨"2".data, "3".data, "4".data, by decide, by decide, by decide, by decide, by decide,
     by decide, by decide⟩,
   ⟨"1".data, [], by decide⟩,
   by decide⟩

/-- C4, amended: extraction returns the non-overlapping matches of the
three-part numeric pattern, leftmost first, in order of occurrence and
without de-duplication, and reconciliation maps the identifier at 1-based
position i to the target filename `{scene}_{i}.mp4`; in particular for
output containing `000000001_000000_000` then `000000002_000000_000` and
scene `S` the produced target filenames are `S_1.mp4` then `S_2.mp4`. -/
theorem C4_extraction_order_and_naming (pfx scene : List Char) (ids : List (List Char))
    (idx : Nat) (fs : Fs) (l : List (List Char)) :
    ((reconcile pfx scene ids idx fs).result = .ok l →
      l = newsList pfx scene idx ids.length) ∧
    findall "1_2_3 and 1_2_3".data = ["1_2_3".data, "1_2_3".data] ∧
    (run_and_rename "f.py".data "S".data "480p15".data
        ⟨0, "a 000000001_000000_000 b\nc 000000002_000000_000 d".data, "ignored".data⟩
        (fun q =>
          if q = "media/videos/f/480p15/partial_movie_files/S/000000001_000000_000.mp4".data
            then some 0
          else if q = "media/videos/f/480p15/partial_movie_files/S/000000002_000000_000.mp4".data
            then some 1
          else none)).result
      = .ok ["media/videos/f/480p15/partial_movie_files/S/S_1.mp4".data,
             "media/videos/f/480p15/partial_movie_files/S/S_2.mp4".data] :=
  ⟨reconcile_ok_names pfx scene ids idx fs l, by decide, by decide⟩

/-- Witness for C4 at a concrete input. -/
theorem C4_extraction_order_and_naming_witness :
    ["p/S_1.mp4".data] = newsList "p/".data "S".data 1 1 :=
  (C4_extraction_order_and_naming "p/".data "S".data ["1_2_3".data] 1
      (fun q => if q = "p/1_2_3.mp4".data then some 0 else none) ["p/S_1.mp4".data]).1
    (by decide)

/-- C5, confirmed: when the scanned output text contains no substring
matching the three-part numeric pattern (and the quality label is valid so
the run reaches the scan), `run_and_rename` performs no removal and no
rename, leaves the filesystem untouched, and returns the empty list. -/
theorem C5_no_match_no_mutation (filename scene quality : List Char) (sub : SubprocessResult)
    (fs : Fs) (hq : (qualities quality).isSome = true)
    (hnone : ∀ m, isTriple m → ¬ m <:+: scanned sub) :
    (run_and_rename filename scene quality sub fs).trace = [] ∧
    (run_and_rename filename scene quality sub fs).fs = fs ∧
    (run_and_rename filename scene quality sub fs).result = .ok [] := by
  have hfind : findall (scanned sub) = [] := by
    cases hf : findall (scanned sub) with
    | nil => rfl
    | cons m ms =>
      have hm : m ∈ findall (scanned sub) := by rw [hf]; exact List.mem_cons_self _ _
      have hs := findall_sound _ m hm
      exact absurd hs.2 (hnone m hs.1)
  obtain ⟨flag, hflag⟩ := Option.isSome_iff_exists.mp hq
  unfold run_and_rename
  rw [hflag]
  simp [hfind, reconcile]

/-- Witness for C5 at a concrete input. -/
theorem C5_no_match_no_mutation_witness :
    (run_and_rename "f.py".data "S".data "480p15".data ⟨0, "hello world".data, "e".data⟩
        (fun _ => none)).trace = [] ∧
    (run_and_rename "f.py".data "S".data "480p15".data ⟨0, "hello world".data, "e".data⟩
        (fun _ => none)).fs = (fun _ => none) ∧
    (run_and_rename "f.py".data "S".data "480p15".data ⟨0, "hello world".data, "e".data⟩
        (fun _ => none)).result = .ok [] :=
  C5_no_match_no_mutation "f.py".data "S".data "480p15".data ⟨0, "hello world".data, "e".data⟩
    (fun _ => none) (by decide) (no_digits_no_triple (by decide))

/-- C8, confirmed: `run_and_rename` never inspects the subprocess exit
code; its entire outcome (trace, filesystem, result) is the same for any
two exit codes with the same captured output. -/
theorem C8_exit_code_ignored (filename scene quality : List Char) (ec ec2 : Int)
    (out err : List Char) (fs : Fs) :
    run_and_rename filename scene quality ⟨ec, out, err⟩ fs
      = run_and_rename filename scene quality ⟨ec2, out, err⟩ fs := rfl

end Render

namespace Render

/-- C3, counterexample: with the renderer not regenerating the original
file, the first run succeeds and leaves the target `S_1.mp4` in place, but
the second run with the same inputs deletes that target and then raises
`FileNotFoundError` on the rename, so re-running is not idempotent: the
second run neither succeeds nor preserves the final file set. -/
theorem C3_rerun_without_regeneration_fails :
    rerunOnce.result = .ok [newPathAt rerunPfx "S".data 1] ∧
    (rerunOnce.fs (newPathAt rerunPfx "S".data 1)).isSome = true ∧
    rerunTwice.result = .error .fileNotFound ∧
    (rerunTwice.fs (newPathAt rerunPfx "S".data 1)).isSome = false :=
  ⟨by decide, by decide, by decide, by decide⟩

/-- C3, amended: re-running reconciliation is idempotent provided the
renderer has regenerated the original files in between (which is what the
delete-before-rename achieves on a genuine re-run): with distinct
identifiers whose original paths are disjoint from the target paths and
present in the filesystem, both runs succeed and the final sets of
existing paths coincide. -/
theorem C3_rerun_after_regeneration_idempotent (pfx scene : List Char)
    (ids : List (List Char)) (fs : Fs) (c : Nat)
    (hnd : (oldsList pfx ids).Nodup)
    (hdisj : ∀ p ∈ oldsList pfx ids, p ∉ newsList pfx scene 1 ids.length)
    (hpresent : ∀ p ∈ oldsList pfx ids, (fs p).isSome = true) :
    (∃ l1, (reconcile pfx scene ids 1 fs).result = .ok l1) ∧
    (∃ l2, (reconcile pfx scene ids 1
        (restoreOlds pfx ids c (reconcile pfx scene ids 1 fs).fs)).result = .ok l2) ∧
    (∀ q, ((reconcile pfx scene ids 1
        (restoreOlds pfx ids c (reconcile pfx scene ids 1 fs).fs)).fs q).isSome
      = ((reconcile pfx scene ids 1 fs).fs q).isSome) := by
  have boolf : ∀ (b : Bool), ¬(b = true) → b = false := by
    intro b hb
    cases b
    · rfl
    · exact absurd rfl hb
  obtain ⟨hok1, hdom1⟩ := reconcile_ok_dom pfx scene ids 1 fs hnd hdisj hpresent
  have hpresent2 : ∀ p ∈ oldsList pfx ids,
      ((restoreOlds pfx ids c (reconcile pfx scene ids 1 fs).fs) p).isSome = true := by
    intro p hp
    unfold restoreOlds
    rw [if_pos hp]
    rfl
  obtain ⟨hok2, hdom2⟩ := reconcile_ok_dom pfx scene ids 1 _ hnd hdisj hpresent2
  refine ⟨hok1, hok2, ?_⟩
  intro q
  have e1 := hdom1 q
  have e2 := hdom2 q
  by_cases hq : q ∈ newsList pfx scene 1 ids.length
  · rw [e1.mpr (Or.inl hq), e2.mpr (Or.inl hq)]
  · by_cases hq2 : q ∈ oldsList pfx ids
    · have f1 : ¬(((reconcile pfx scene ids 1 fs).fs q).isSome = true) := by
        intro h
        rcases e1.mp h with h | ⟨-, h⟩
        · exact hq h
        · exact h hq2
      have f2 : ¬(((reconcile pfx scene ids 1
          (restoreOlds pfx ids c (reconcile pfx scene ids 1 fs).fs)).fs q).isSome = true) := by
        intro h
        rcases e2.mp h with h | ⟨-, h⟩
        · exact hq h
        · exact h hq2
      rw [boolf _ f2, boolf _ f1]
    · have hrest : (restoreOlds pfx ids c (reconcile pfx scene ids 1 fs).fs) q
          = (reconcile pfx scene ids 1 fs).fs q := by
        unfold restoreOlds
        rw [if_neg hq2]
      by_cases hb : ((reconcile pfx scene ids 1 fs).fs q).isSome = true
      · rw [hb, e2.mpr (Or.inr ⟨by rw [hrest]; exact hb, hq2⟩)]
      · have f2 : ¬(((reconcile pfx scene ids 1
            (restoreOlds pfx ids c (reconcile pfx scene ids 1 fs).fs)).fs q).isSome = true) := by
          intro h
          rcases e2.mp h with h | ⟨h, -⟩
          · exact hq h
          · rw [hrest] at h
            exact hb h
        rw [boolf _ f2, boolf _ hb]

/-- Witness for C3 at a concrete input. -/
theorem C3_rerun_after_regeneration_idempotent_witness :
    (∃ l1, (reconcile "p/".data "S".data ["1_2_3".data] 1
        (fun q => if q = "p/1_2_3.mp4".data then some 0 else none)).result = .ok l1) ∧
    (∃ l2, (reconcile "p/".data "S".data ["1_2_3".data] 1
        (restoreOlds "p/".data ["1_2_3".data] 5
          (reconcile "p/".data "S".data ["1_2_3".data] 1
            (fun q => if q = "p/1_2_3.mp4".data then some 0 else none)).fs)).result
      = .ok l2) ∧
    ((reconcile "p/".data "S".data ["1_2_3".data] 1
        (restoreOlds "p/".data ["1_2_3".data] 5
          (reconcile "p/".data "S".data ["1_2_3".data] 1
            (fun q => if q = "p/1_2_3.mp4".data then some 0 else none)).fs)).fs
        "p/S_1.mp4".data).isSome
      = ((reconcile "p/".data "S".data ["1_2_3".data] 1
          (fun q => if q = "p/1_2_3.mp4".data then some 0 else none)).fs
          "p/S_1.mp4".data).isSome :=
  ⟨(C3_rerun_after_regeneration_idempotent "p/".data "S".data ["1_2_3".data]
      (fun q => if q = "p/1_2_3.mp4".data then some 0 else none) 5
      (by decide) (by decide) (by decide)).1,
   (C3_rerun_after_regeneration_idempotent "p/".data "S".data ["1_2_3".data]
      (fun q => if q = "p/1_2_3.mp4".data then some 0 else none) 5
      (by decide) (by decide) (by decide)).2.1,
   (C3_rerun_after_regeneration_idempotent "p/".data "S".data ["1_2_3".data]
      (fun q => if q = "p/1_2_3.mp4".data then some 0 else none) 5
      (by decide) (by decide) (by decide)).2.2 "p/S_1.mp4".data⟩

/-- C6, confirmed: the quality lookup succeeds exactly on the five defined
labels, the five flags are pairwise distinct, and on any other label
`run_and_rename` raises `KeyError` while building the command line: the
subprocess is never started and the filesystem is untouched. -/
theorem C6_quality_lookup_total_and_fail_closed (q filename scene : List Char)
    (sub : SubprocessResult) (fs : Fs) :
    ((qualities q).isSome = true ↔ q ∈ qualityLabels) ∧
    (qualityLabels.map qualities).Nodup ∧
    ((qualities q).isSome = false →
      run_and_rename filename scene q sub fs = ⟨[], fs, false, .error .keyError⟩) := by
  refine ⟨⟨?_, ?_⟩, by decide, ?_⟩
  · intro h
    unfold qualities at h
    split_ifs at h with h1 h2 h3 h4 h5
    · rw [h1]; decide
    · rw [h2]; decide
    · rw [h3]; decide
    · rw [h4]; decide
    · rw [h5]; decide
    · simp at h
  · intro h
    have h2 : q = "480p15".data ∨ q = "720p30".data ∨ q = "1080p60".data
        ∨ q = "1440p60".data ∨ q = "2160p60".data := by
      simpa [qualityLabels] using h
    rcases h2 with h2 | h2 | h2 | h2 | h2 <;> (rw [h2]; decide)
  · intro h
    have hnone : qualities q = none := by
      cases hcase : qualities q with
      | none => rfl
      | some f => rw [hcase] at h; simp at h
    unfold run_and_rename
    rw [hnone]

/-- Witness for C6 at a concrete input. -/
theorem C6_quality_lookup_total_and_fail_closed_witness :
    ((qualities "144p60".data).isSome = true ↔ "144p60".data ∈ qualityLabels) ∧
    run_and_rename "f.py".data "S".data "144p60".data ⟨0, "out".data, "err".data⟩
        (fun _ => none)
      = ⟨[], (fun _ => none), false, .error .keyError⟩ :=
  ⟨(C6_quality_lookup_total_and_fail_closed "144p60".data "f.py".data "S".data
      ⟨0, "out".data, "err".data⟩ (fun _ => none)).1,
   (C6_quality_lookup_total_and_fail_closed "144p60".data "f.py".data "S".data
      ⟨0, "out".data, "err".data⟩ (fun _ => none)).2.2 (by decide)⟩

/-- C7, confirmed: `run_and_rename` never raises `FileExistsError` — under
the modelled Windows rename semantics this is exactly the statement that a
rename is never attempted while a pre-existing file remains at the target
path — and whenever the target of the step at position `idx` exists
beforehand, the trace of that step starts with its removal, before the
rename. -/
theorem C7_target_removed_before_rename (filename scene quality : List Char)
    (sub : SubprocessResult) (fs : Fs) (pfx scn id : List Char)
    (rest : List (List Char)) (idx : Nat) (fs2 : Fs) :
    (run_and_rename filename scene quality sub fs).result ≠ .error .fileExists ∧
    ((fs2 (newPathAt pfx scn idx)).isSome = true →
      ∃ tr, (reconcile pfx scn (id :: rest) idx fs2).trace
          = .remove (newPathAt pfx scn idx) :: tr) := by
  constructor
  · cases hq : qualities quality with
    | none =>
      unfold run_and_rename
      rw [hq]
      simp
    | some f =>
      unfold run_and_rename
      rw [hq]
      exact reconcile_ne_fileExists (pathPrefix filename quality scene) scene
        (findall (scanned sub)) 1 fs
  · intro hex
    have hnew0 : fsRemoveIf (newPathAt pfx scn idx) fs2 (newPathAt pfx scn idx) = none := by
      rw [fsRemoveIf_apply, if_pos rfl]
    rcases fsRename_cases (oldPathAt pfx id) (newPathAt pfx scn idx)
        (fsRemoveIf (newPathAt pfx scn idx) fs2) hnew0 with ⟨hr, -⟩ | ⟨fs1, hr⟩
    · refine ⟨[], ?_⟩
      simp only [reconcile, hr]
      rw [if_pos hex]
    · refine ⟨.rename (oldPathAt pfx id) (newPathAt pfx scn idx)
          :: (reconcile pfx scn rest (idx + 1) fs1).trace, ?_⟩
      simp only [reconcile, hr]
      rw [if_pos hex]
      rfl

/-- Witness for C7 at a concrete input. -/
theorem C7_target_removed_before_rename_witness :
    (run_and_rename "f.py".data "S".data "480p15".data ⟨0, "o".data, "e".data⟩
        (fun _ => none)).result ≠ .error .fileExists ∧
    (∃ tr, (reconcile "p/".data "S".data ["1_2_3".data] 1
        (fun q => if q = "p/S_1.mp4".data then some 0 else none)).trace
        = .remove (newPathAt "p/".data "S".data 1) :: tr) :=
  ⟨(C7_target_removed_before_rename "f.py".data "S".data "480p15".data ⟨0, "o".data, "e".data⟩
      (fun _ => none) "p/".data "S".data "1_2_3".data [] 1
      (fun q => if q = "p/S_1.mp4".data then some 0 else none)).1,
   (C7_target_removed_before_rename "f.py".data "S".data "480p15".data ⟨0, "o".data, "e".data⟩
      (fun _ => none) "p/".data "S".data "1_2_3".data [] 1
      (fun q => if q = "p/S_1.mp4".data then some 0 else none)).2 (by decide)⟩

/-- C9, confirmed: the rename batch has no rollback.  If the renames for
`pre` succeed and the rename for the next identifier `id` fails (its
source file is missing, for example because `id` already occurred in
`pre`), then the whole run keeps every mutation performed so far — the
trace is the successful prefix trace plus the removal of the failing
step's target, the final filesystem is the prefix state with that removal
applied, and no filename list is returned, only `FileNotFoundError`. -/
theorem C9_no_rollback_on_failure (pfx scene : List Char) (pre : List (List Char))
    (id : List Char) (rest : List (List Char)) (idx : Nat) (fs : Fs)
    (l1 : List (List Char))
    (hok : (reconcile pfx scene pre idx fs).result = .ok l1)
    (hfail : fsRemoveIf (newPathAt pfx scene (idx + pre.length))
        (reconcile pfx scene pre idx fs).fs (oldPathAt pfx id) = none) :
    (reconcile pfx scene (pre ++ id :: rest) idx fs).trace
        = (reconcile pfx scene pre idx fs).trace ++
          (if ((reconcile pfx scene pre idx fs).fs
                (newPathAt pfx scene (idx + pre.length))).isSome
           then [.remove (newPathAt pfx scene (idx + pre.length))] else []) ∧
    (reconcile pfx scene (pre ++ id :: rest) idx fs).fs
        = fsRemoveIf (newPathAt pfx scene (idx + pre.length))
            (reconcile pfx scene pre idx fs).fs ∧
    (reconcile pfx scene (pre ++ id :: rest) idx fs).result = .error .fileNotFound := by
  rw [reconcile_failure_keeps_done_steps pfx scene pre id rest idx fs l1 hok hfail]
  exact ⟨rfl, rfl, rfl⟩

/-- Witness for C9 at a concrete input: the identifier `1_2_3` occurs
twice, so the second occurrence's source file is already gone. -/
theorem C9_no_rollback_on_failure_witness :
    (reconcile "p/".data "S".data ["1_2_3".data, "1_2_3".data] 1
        (fun q => if q = "p/1_2_3.mp4".data then some 0 else none)).trace
        = (reconcile "p/".data "S".data ["1_2_3".data] 1
            (fun q => if q = "p/1_2_3.mp4".data then some 0 else none)).trace ++
          (if ((reconcile "p/".data "S".data ["1_2_3".data] 1
                (fun q => if q = "p/1_2_3.mp4".data then some 0 else none)).fs
                (newPathAt "p/".data "S".data 2)).isSome
           then [.remove (newPathAt "p/".data "S".data 2)] else []) ∧
    (reconcile "p/".data "S".data ["1_2_3".data, "1_2_3".data] 1
        (fun q => if q = "p/1_2_3.mp4".data then some 0 else none)).fs
        = fsRemoveIf (newPathAt "p/".data "S".data 2)
            (reconcile "p/".data "S".data ["1_2_3".data] 1
              (fun q => if q = "p/1_2_3.mp4".data then some 0 else none)).fs ∧
    (reconcile "p/".data "S".data ["1_2_3".data, "1_2_3".data] 1
        (fun q => if q = "p/1_2_3.mp4".data then some 0 else none)).result
        = .error .fileNotFound :=
  C9_no_rollback_on_failure "p/".data "S".data ["1_2_3".data] "1_2_3".data [] 1
    (fun q => if q = "p/1_2_3.mp4".data then some 0 else none) ["p/S_1.mp4".data]
    (by decide) (by decide)

/-- C10, confirmed: every path that `run_and_rename` removes, renames from
or renames to extends the single directory prefix computed once from its
arguments, and the file at every path not extending that prefix is left
unchanged. -/
theorem C10_mutations_confined_to_dir (filename scene quality : List Char)
    (sub : SubprocessResult) (fs : Fs) :
    (∀ fsop ∈ (run_and_rename filename scene quality sub fs).trace,
      ∀ p ∈ opPaths fsop, ∃ t, p = pathPrefix filename quality scene ++ t) ∧
    (∀ q, (∀ t, q ≠ pathPrefix filename quality scene ++ t) →
      (run_and_rename filename scene quality sub fs).fs q = fs q) := by
  cases hq : qualities quality with
  | none =>
    unfold run_and_rename
    rw [hq]
    constructor
    · intro fsop h
      simp at h
    · intro q hq2
      rfl
  | some f =>
    unfold run_and_rename
    rw [hq]
    exact reconcile_frame (pathPrefix filename quality scene) scene
      (findall (scanned sub)) 1 fs

/-- Witness for C10 at a concrete input. -/
theorem C10_mutations_confined_to_dir_witness :
    (∃ t, "media/videos/f/480p15/partial_movie_files/S/1_2_3.mp4".data
        = pathPrefix "f.py".data "480p15".data "S".data ++ t) ∧
    (run_and_rename "f.py".data "S".data "480p15".data ⟨0, "1_2_3".data, "".data⟩
        (fun q => if q = "media/videos/f/480p15/partial_movie_files/S/1_2_3.mp4".data
                  then some 0 else none)).fs "q".data
      = (fun q => if q = "media/videos/f/480p15/partial_movie_files/S/1_2_3.mp4".data
                  then some 0 else none) "q".data :=
  ⟨(C10_mutations_confined_to_dir "f.py".data "S".data "480p15".data
      ⟨0, "1_2_3".data, "".data⟩
      (fun q => if q = "media/videos/f/480p15/partial_movie_files/S/1_2_3.mp4".data
                then some 0 else none)).1
      (.rename "media/videos/f/480p15/partial_movie_files/S/1_2_3.mp4".data
        "media/videos/f/480p15/partial_movie_files/S/S_1.mp4".data)
      (by decide)
      "media/videos/f/480p15/partial_movie_files/S/1_2_3.mp4".data
      (by decide),
   (C10_mutations_confined_to_dir "f.py".data "S".data "480p15".data
      ⟨0, "1_2_3".data, "".data⟩
      (fun q => if q = "media/videos/f/480p15/partial_movie_files/S/1_2_3.mp4".data
                then some 0 else none)).2
      "q".data
      (by
        intro t h
        have hlen := congrArg List.length h
        rw [List.length_append] at hlen
        have hp : (pathPrefix "f.py".data "480p15".data "S".data).length = 44 := by decide
        have h1 : ("q".data).length = 1 := by decide
        rw [hp, h1] at hlen
        omega)⟩

end Render
